import Mathlib

/-!
Verification development for the conversational-AI backend
(`backend/app`).  Python source functions are shallowly embedded as
executable Lean definitions; database result sets, Redis state and
LLM / search backends appear as explicit inputs.  Theorems settle the
behavioural claims about the streaming chat pipeline, the session
store, the deep-search graph, hybrid retrieval and the conversation /
checkpoint services.
-/

namespace Agent

/-! ## Streaming transport (`app/services/chat_service.py`, `ChatService.stream`)

`astream_events` items are embedded as `RawEvent`: the event kind, the
graph node that produced it (present in the real event's metadata; the
Python loop never reads it) and the chunk content (`None` when the
event carries no chunk or the chunk has no non-empty `content`
attribute). -/

structure RawEvent where
  kind : String
  node : String
  chunkContent : Option String
deriving Repr, DecidableEq

/-- A serialized SSE record produced by the generator: its `type`
field, the `content` field of `chunk` records, and the `tokenCount`
field of the `done` record. -/
structure StreamEvent where
  type : String
  content : String
  tokenCount : Option Nat
deriving Repr, DecidableEq

/-- A row written through `ConversationService.persist_message` by the
streaming pipeline. -/
structure PersistedMessage where
  role : String
  content : String
  parentId : Option Nat
  tokenCount : Nat
deriving Repr, DecidableEq

/-- `if chunk and hasattr(chunk, "content") and chunk.content:` —
the event loop forwards an event exactly when its kind is
`on_chat_model_stream` and the chunk carries non-empty content.  The
producing node is not consulted. -/
def forwardsToken (e : RawEvent) : Bool :=
  e.kind == "on_chat_model_stream" &&
    (match e.chunkContent with
     | some s => !(s == "")
     | none => false)

/-- One iteration of the `async for event in temp_graph.astream_events`
loop: accumulates yielded `chunk` records and the `full_reply` list. -/
def streamStep (acc : List StreamEvent × List String) (e : RawEvent) :
    List StreamEvent × List String :=
  match e.chunkContent with
  | some token =>
      if forwardsToken e then
        (acc.1 ++ [⟨"chunk", token, none⟩], acc.2 ++ [token])
      else acc
  | none => acc

/-- `f"暂未接入模型，回显: {content}"` — fallback reply when no model
service is configured. -/
def fallbackReply (content : String) : String :=
  "暂未接入模型，回显: " ++ content

/-- Result of one run of `ChatService.stream`: the yielded records and
the two rows persisted via `persist_message`. -/
structure StreamRun where
  events : List StreamEvent
  userMessage : PersistedMessage
  assistantMessage : PersistedMessage
deriving Repr

/-- `ChatService.stream` (persistence and event skeleton).  The method
signature is `stream(self, user_id, conversation_id, content,
model_code, db=None)`: it takes no `regenerate` or `parent_message_id`
parameter, always persists the user message first (step 2, with no
`parent_id` argument, so `parent_id=None`), folds the model events,
persists the assistant message with the concatenated reply and
`token_count=len(reply_text)`, and finally yields the `done` record
with `tokenCount=len(reply_text)`. -/
def chatServiceStream (hasModel : Bool) (content : String)
    (events : List RawEvent) : StreamRun :=
  let userMessage : PersistedMessage := ⟨"user", content, none, 0⟩
  let acc :=
    if hasModel then events.foldl streamStep ([], [])
    else ([⟨"chunk", fallbackReply content, none⟩], [fallbackReply content])
  let replyText := String.join acc.2
  let assistantMessage : PersistedMessage :=
    ⟨"assistant", replyText, none, replyText.length⟩
  { events := acc.1 ++ [⟨"done", "", some replyText.length⟩]
    userMessage := userMessage
    assistantMessage := assistantMessage }

/-- Keyword parameters accepted by `ChatService.stream`
(`app/services/chat_service.py`). -/
def chatServiceStreamParams : List String :=
  ["user_id", "conversation_id", "content", "model_code", "db"]

/-- Keyword arguments passed by the `/chat/stream` route
(`app/api/routes/chat.py`, `stream_chat` → `chat_service.stream(...)`). -/
def streamChatCallKwargs : List String :=
  ["user_id", "conversation_id", "content", "model_code",
   "regenerate", "parent_message_id", "db"]

/-- A Python call without `**kwargs` raises `TypeError` unless every
keyword argument names a declared parameter. -/
def pythonCallAccepted (declared passed : List String) : Bool :=
  passed.all (fun kw => declared.contains kw)

/-- Claim C6 as stated by the spec: a forwarded token always
originates from one of the output nodes `chatbot` or `summary`. -/
def onlyOutputNodesForwarded : Prop :=
  ∀ e : RawEvent, forwardsToken e = true → e.node = "chatbot" ∨ e.node = "summary"

lemma filter_chunks_streamStep (events : List RawEvent) :
    ∀ acc : List StreamEvent × List String,
      (acc.1.filter (fun ev => ev.type == "chunk")).map (fun ev => ev.content) = acc.2 →
      (((events.foldl streamStep acc).1.filter (fun ev => ev.type == "chunk")).map
          (fun ev => ev.content))
        = (events.foldl streamStep acc).2 := by
  induction events with
  | nil => intro acc h; simpa using h
  | cons e rest ih =>
      intro acc h
      simp only [List.foldl_cons]
      apply ih
      unfold streamStep
      cases hc : e.chunkContent with
      | none => simpa using h
      | some token =>
          by_cases hf : forwardsToken e = true
          · simp [hf, List.filter_append, List.map_append, h]
          · simp only [hf]
            simpa using h

/-! ## Conversation store (`app/services/conversation_service.py`)

The relational state is embedded as explicit row lists.  A `SELECT`
with `ORDER BY create_time ASC` is embedded as a stable sort of the
table rows by `create_time`: SQL leaves the relative order of ties
unspecified, so the embedding exposes it as the table's row order. -/

structure MessageRow where
  id : Nat
  conversationId : Nat
  senderId : Int
  role : String
  content : String
  contentType : String
  modelCode : Option String
  tokenCount : Nat
  parentId : Option Nat
  checkpointId : Option String
  createTime : Nat
deriving Repr, DecidableEq

structure ConversationRow where
  id : Nat
  lastMessageId : Option Nat
  lastMessageAt : Option Nat
  currentMessageId : Option Nat
deriving Repr, DecidableEq

structure Db where
  conversations : List ConversationRow
  messages : List MessageRow
deriving Repr, DecidableEq

/-- `ConversationService.persist_message`: inserts the message row
(`id` and `create_time` are generated by the database and appear as
explicit inputs) and updates the owning conversation row with
`last_message_id=message.id` and `last_message_at=message.create_time`. -/
def persistMessage (db : Db) (conversationId : Nat) (senderId : Int)
    (role content contentType : String) (modelCode : Option String)
    (tokenCount : Nat) (parentId : Option Nat) (checkpointId : Option String)
    (newId createTime : Nat) : Db × MessageRow :=
  let message : MessageRow :=
    { id := newId, conversationId := conversationId, senderId := senderId
      role := role, content := content, contentType := contentType
      modelCode := modelCode, tokenCount := tokenCount, parentId := parentId
      checkpointId := checkpointId, createTime := createTime }
  let conversations := db.conversations.map (fun c =>
    if c.id == conversationId then
      { c with lastMessageId := some newId, lastMessageAt := some createTime }
    else c)
  ({ conversations := conversations, messages := db.messages ++ [message] }, message)

/-- Claim C7 as stated by the spec: after `persist_message`, the owning
conversation's `current_message_id` points at the new row. -/
def persistMessageUpdatesCurrent : Prop :=
  ∀ (db : Db) (conversationId : Nat) (senderId : Int)
    (role content contentType : String) (modelCode : Option String)
    (tokenCount : Nat) (parentId : Option Nat) (checkpointId : Option String)
    (newId createTime : Nat),
    ∀ c ∈ (persistMessage db conversationId senderId role content contentType
        modelCode tokenCount parentId checkpointId newId createTime).1.conversations,
      c.id = conversationId → c.currentMessageId = some newId

lemma find?_map_update {α : Type} (l : List α) (p : α → Bool) (f : α → α)
    (hf : ∀ a, p (f a) = p a) :
    (l.map (fun a => if p a then f a else a)).find? p = (l.find? p).map f := by
  induction l with
  | nil => rfl
  | cons a t ih =>
      by_cases h : p a = true
      · simp [List.find?_cons, h, hf]
      · simp only [Bool.not_eq_true] at h
        simp [List.find?_cons, h, ih]

/-- `ConversationService.get_sibling_messages` result shape. -/
structure SiblingView where
  current : Nat
  total : Nat
  siblings : List String
deriving Repr, DecidableEq

/-- `ConversationService.get_sibling_messages`: loads the message, and
when it has a parent selects all ids sharing that `parent_id` ordered
by `create_time` ascending, computing the index of the given id
(`try/except ValueError` falls back to 0).  A missing message or a
null `parent_id` yields `{current: 0, total: 1, siblings: [id]}`. -/
def getSiblingMessages (table : List MessageRow) (messageId : Nat) : SiblingView :=
  match table.find? (fun m => m.id == messageId) with
  | none => ⟨0, 1, [toString messageId]⟩
  | some m =>
    match m.parentId with
    | none => ⟨0, 1, [toString messageId]⟩
    | some pid =>
      let rows := table.filter (fun r => r.parentId == some pid)
      let ordered := rows.mergeSort (fun a b => decide (a.createTime ≤ b.createTime))
      let siblings := ordered.map (fun r => toString r.id)
      let current :=
        if toString messageId ∈ siblings then siblings.indexOf (toString messageId) else 0
      ⟨current, siblings.length, siblings⟩

/-- Claim C8 as stated by the spec: the sibling list is ordered by
`(create_time, id)` ascending. -/
def siblingsOrderedByCreateTimeAndId : Prop :=
  ∀ (table : List MessageRow) (messageId : Nat) (m : MessageRow) (pid : Nat),
    table.find? (fun r => r.id == messageId) = some m →
    m.parentId = some pid →
    (getSiblingMessages table messageId).siblings
      = ((table.filter (fun r => r.parentId == some pid)).mergeSort
          (fun a b => decide ((a.createTime, a.id) ≤ (b.createTime, b.id)))).map
          (fun r => toString r.id)

/-- Two sibling rows with equal `create_time`, stored with the larger
id first: `ORDER BY create_time` alone does not reorder them. -/
def c8Row (i : Nat) : MessageRow :=
  { id := i, conversationId := 100, senderId := -1, role := "assistant"
    content := "a", contentType := "TEXT", modelCode := none, tokenCount := 1
    parentId := some 9, checkpointId := none, createTime := 5 }

def c8Table : List MessageRow :=
  [ { id := 9, conversationId := 100, senderId := 1, role := "user"
      content := "q", contentType := "TEXT", modelCode := none, tokenCount := 1
      parentId := none, checkpointId := none, createTime := 4 },
    c8Row 2, c8Row 1 ]

/-! ## Context retrieval node (`app/nodes/context_node.py`)

The two retrieval backends (`EmbeddingService.search_similar` and
`EmbeddingService.hybrid_search_knowledge_base`) are awaited inside
`try/except Exception`; their outcome is embedded as an `Except`
value: `.error` is a raised exception, `.ok` the returned result
list. -/

/-- A row returned by the history semantic search:
`{"content", "role", "similarity"}`. -/
structure HistoryHit where
  content : String
  role : String
deriving Repr, DecidableEq

/-- A chunk returned by knowledge-base hybrid search.  `similarityStr`
stands for the `f"{similarity:.2f}"` rendering of the float score
(floating-point formatting is not embedded). -/
structure KbHit where
  content : String
  fileName : Option String
  similarityStr : String
deriving Repr, DecidableEq

/-- `f"{i}. {role}: {content}"` lines of `get_history_context`. -/
def formatHistoryHits (hits : List HistoryHit) : List String :=
  (List.enumFrom 1 hits).map (fun p =>
    toString p.1 ++ ". " ++ (if p.2.role == "user" then "用户" else "助手")
      ++ ": " ++ p.2.content)

/-- `get_history_context`: empty inputs short-circuit to `""`; a raised
exception is logged and degrades to `""`; otherwise the hits are
formatted under the `【相关历史对话】` header. -/
def getHistoryContext (hasService hasDb : Bool) (conversationId : Option Nat)
    (outcome : Except String (List HistoryHit)) : String :=
  if !hasService || !hasDb || conversationId == none then ""
  else
    match outcome with
    | .error _ => ""
    | .ok results =>
        if results.isEmpty then ""
        else "【相关历史对话】\n" ++ String.intercalate "\n" (formatHistoryHits results)

/-- `f"{i}. [{source}] (相似度: {similarity:.2f})\n{content}"` lines of
`get_kb_context`. -/
def formatKbHits (hits : List KbHit) : List String :=
  (List.enumFrom 1 hits).map (fun p =>
    toString p.1 ++ ". [" ++ p.2.fileName.getD "未知来源" ++ "] (相似度: "
      ++ p.2.similarityStr ++ ")\n" ++ p.2.content)

/-- `get_kb_context`: empty inputs short-circuit to `""`; a raised
exception is logged and degrades to `""`; otherwise the chunks are
formatted under the `【知识库参考资料】` header. -/
def getKbContext (hasService hasDb : Bool) (knowledgeBaseIds : List Nat)
    (outcome : Except String (List KbHit)) : String :=
  if !hasService || !hasDb || knowledgeBaseIds.isEmpty then ""
  else
    match outcome with
    | .error _ => ""
    | .ok results =>
        if results.isEmpty then ""
        else "【知识库参考资料】\n" ++ String.intercalate "\n\n" (formatKbHits results)

/-- The `context_retrieval` node output channels. -/
structure ContextPatch where
  historyContext : String
  kbContext : String
deriving Repr, DecidableEq

/-- A structured message in graph state, as consumed by the nodes. -/
structure ChatMsg where
  role : String
  content : String
deriving Repr, DecidableEq

/-- Last `HumanMessage` content, or `""` (`for msg in
reversed(messages): if isinstance(msg, HumanMessage)`). -/
def lastHumanContent (messages : List ChatMsg) : String :=
  match messages.reverse.find? (fun m => m.role == "human") with
  | some m => m.content
  | none => ""

/-- `context_node`: extracts the query from the last human message
(empty query returns empty contexts) and gathers the two retrieval
results; each backend failure independently degrades its context to
`""` and the node itself always returns a patch. -/
def contextNode (messages : List ChatMsg) (hasService hasDb : Bool)
    (conversationId : Option Nat) (knowledgeBaseIds : List Nat)
    (historyOutcome : Except String (List HistoryHit))
    (kbOutcome : Except String (List KbHit)) : ContextPatch :=
  let query := lastHumanContent messages
  if query == "" then ⟨"", ""⟩
  else
    ⟨getHistoryContext hasService hasDb conversationId historyOutcome,
     getKbContext hasService hasDb knowledgeBaseIds kbOutcome⟩

/-! ## Checkpoint service (`app/services/checkpoint_service.py`)

`get_sibling_checkpoints` works on the projected checkpoint history
(`_collect_history`): one entry per checkpoint with its id, parent id
and message count.  Python's `cp_map` dict comprehension lets later
entries overwrite earlier ones, hence lookup searches the reversed
list; the `safety_break` / `sanity` guards (`< 100`) appear as fuel. -/

structure HistEntry where
  checkpointId : String
  parentId : Option String
  messageCount : Nat
deriving Repr, DecidableEq

/-- `cp_map.get(key)` for `cp_map = {h["checkpointId"]: h for h in history}`. -/
def cpGet (history : List HistEntry) (key : String) : Option HistEntry :=
  history.reverse.find? (fun h => h.checkpointId == key)

/-- Python truthiness of an optional string (`None` and `""` are falsy). -/
def strFalsy : Option String → Bool
  | none => true
  | some s => s == ""

/-- The deep-ascent anchor loop: walk `parentId` links from the
current checkpoint until a node with strictly smaller `messageCount`
is found (the true fork point), stopping on a missing node, a falsy
parent, or after 100 steps. -/
def findAnchor (history : List HistEntry) (currentCount : Nat) :
    Nat → String → Option String
  | 0, _ => none
  | fuel + 1, cursorId =>
      if cursorId == "" then none
      else
        match cpGet history cursorId with
        | none => none
        | some node =>
            if node.messageCount < currentCount then some cursorId
            else if strFalsy node.parentId then none
            else findAnchor history currentCount fuel (node.parentId.getD "")

/-- `is_descendant(target_id, ancestor_id)`: walk `parentId` links from
`target_id` looking for `ancestor_id`, up to 100 steps. -/
def isDescendant (history : List HistEntry) :
    Nat → String → String → Bool
  | 0, _, _ => false
  | fuel + 1, curr, ancestorId =>
      if curr == "" then false
      else if curr == ancestorId then true
      else
        let parent :=
          match cpGet history curr with
          | some n => n.parentId
          | none => none
        if strFalsy parent then false
        else isDescendant history fuel (parent.getD "") ancestorId

/-- The main branch of `get_sibling_checkpoints`: candidates are the
descendants of the anchor with `messageCount` above the anchor's,
leaves are candidates that parent no other candidate, the queried id
is appended when missing, and the result is deduplicated and sorted
(`sorted(list(set(...)))`). -/
def siblingListFor (history : List HistEntry) (checkpointId anchorId : String) :
    List String :=
  let anchorCount :=
    match cpGet history anchorId with
    | some n => n.messageCount
    | none => 0
  let candidates := (history.filter (fun h =>
      anchorCount < h.messageCount
        && isDescendant history 100 h.checkpointId anchorId)).map
      (fun h => h.checkpointId)
  let realSiblings := candidates.filter (fun cand =>
    !(candidates.any (fun pc =>
        pc != cand
          && (match cpGet history pc with
              | some n => n.parentId == some cand
              | none => false))))
  let withCurrent :=
    if checkpointId ∈ realSiblings then realSiblings
    else realSiblings ++ [checkpointId]
  withCurrent.dedup.mergeSort (fun a b => decide (a ≤ b))

/-- `CheckpointService.get_sibling_checkpoints`: early fallbacks
(`{current: 0, total: 1, siblings: [checkpoint_id]}`) for an empty
history, an unknown checkpoint or an absent anchor; otherwise the
deep-anchor search, with `current` the index of the queried id
(`except ValueError` falls back to `len - 1`). -/
def getSiblingCheckpoints (history : List HistEntry) (checkpointId : String) :
    SiblingView :=
  if history.isEmpty then ⟨0, 1, [checkpointId]⟩
  else
    match cpGet history checkpointId with
    | none => ⟨0, 1, [checkpointId]⟩
    | some current =>
        match findAnchor history current.messageCount 100 checkpointId with
        | none => ⟨0, 1, [checkpointId]⟩
        | some anchorId =>
            let sibs := siblingListFor history checkpointId anchorId
            let cur := if checkpointId ∈ sibs then sibs.indexOf checkpointId
                       else sibs.length - 1
            ⟨cur, sibs.length, sibs⟩

lemma mem_siblingListFor (history : List HistEntry) (checkpointId anchorId : String) :
    checkpointId ∈ siblingListFor history checkpointId anchorId := by
  unfold siblingListFor
  rw [List.mem_mergeSort, List.mem_dedup]
  split
  · assumption
  · exact List.mem_append_right _ (List.mem_singleton_self _)

/-! ## Deep-search planning loop (`app/nodes/planning_node.py`,
`app/nodes/search_node.py`, `app/agent/graph.py`)

The LLM is an oracle `planner : Nat → Except Unit String` giving the
outcome of the n-th planning call (`.error` = raised exception), the
web-search backend an oracle `searcher : String → List String`
(`search_single` already maps per-query failures to `[]`). -/

/-- Python `str.split(sep)` for a one-character separator, over the
character list (`"a;;b".split(";") == ["a", "", "b"]`). -/
def splitOnCharList (c : Char) : List Char → List (List Char)
  | [] => [[]]
  | x :: xs =>
      let r := splitOnCharList c xs
      if x = c then [] :: r
      else
        match r with
        | [] => [[x]]
        | h :: t => (x :: h) :: t

/-- Python `str.split(sep)` on strings. -/
def pySplit (sep : Char) (s : String) : List String :=
  (splitOnCharList sep s.data).map (fun cs => String.mk cs)

/-- Python `str.strip()`: drop leading and trailing whitespace. -/
def pyStrip (s : String) : String :=
  String.mk (((s.data.dropWhile Char.isWhitespace).reverse.dropWhile
    Char.isWhitespace).reverse)

/-- Python `pat in s` substring containment. -/
def containsSub (pat : List Char) : List Char → Bool
  | [] => pat.isEmpty
  | x :: xs => pat.isPrefixOf (x :: xs) || containsSub pat xs

/-- `parse_search_queries`: `None` when the output contains `无需`,
otherwise the `;`-separated, stripped, non-empty keywords — `None`
again when that list is empty. -/
def parseSearchQueries (output : String) : Option (List String) :=
  if containsSub "无需".data output.data then none
  else
    let queries := ((pySplit ';' output).map pyStrip).filter (fun q => !(q == ""))
    if queries.isEmpty then none else some queries

/-- DeepSearch-relevant channels of `AgentState`. -/
structure PlanState where
  messages : List ChatMsg
  question : String
  searchQueries : List String
  references : List (String × List String)
  planningRounds : Nat
deriving Repr, DecidableEq

/-- `planning_node`: defaults the question from the last human
message, invokes the model, parses its output into queries (`[]` when
`无需` or on exception), and increments `planning_rounds` on every
path. -/
def planningNode (state : PlanState) (outcome : Except Unit String) : PlanState :=
  let question :=
    if state.question == "" then lastHumanContent state.messages else state.question
  match outcome with
  | .error _ =>
      { state with
        searchQueries := []
        planningRounds := state.planningRounds + 1
        question := question }
  | .ok content =>
      match parseSearchQueries (pyStrip content) with
      | some qs =>
          { state with
            searchQueries := qs
            planningRounds := state.planningRounds + 1
            question := question }
      | none =>
          { state with
            searchQueries := []
            planningRounds := state.planningRounds + 1
            question := question }

inductive PlanRoute
  | search
  | summary
deriving Repr, DecidableEq

/-- `planning_router`: forces `summary` once `planning_rounds` reaches
`deep_search_max_rounds`; otherwise `search` when queries are pending,
else `summary`. -/
def planningRouter (maxRounds : Nat) (state : PlanState) : PlanRoute :=
  if maxRounds ≤ state.planningRounds then .summary
  else if !state.searchQueries.isEmpty then .search
  else .summary

/-- Merge the gathered `(query, contents)` pairs into `references`,
skipping empty result lists (`if contents:`). -/
def mergeRefs (references : List (String × List String)) :
    List (String × List String) → List (String × List String)
  | [] => references
  | (q, cs) :: rest =>
      if cs.isEmpty then mergeRefs references rest
      else if references.any (fun p => p.1 == q) then
        mergeRefs
          (references.map (fun p => if p.1 == q then (p.1, p.2 ++ cs) else p)) rest
      else mergeRefs (references ++ [(q, cs)]) rest

/-- `search_node`: no pending queries (or no Tavily key) leaves the
state untouched; otherwise runs every query through the backend,
merges the results into `references` and clears `search_queries`. -/
def searchNode (hasTavilyKey : Bool) (searcher : String → List String)
    (state : PlanState) : PlanState :=
  if state.searchQueries.isEmpty then state
  else if !hasTavilyKey then state
  else
    { state with
      references := mergeRefs state.references
        (state.searchQueries.map (fun q => (q, searcher q)))
      searchQueries := [] }

/-- Node-execution counters for one deep-search invocation. -/
structure RunCounts where
  planning : Nat
  search : Nat
  summary : Nat
deriving Repr, DecidableEq

/-- The deep-search sub-graph after `kb_precheck`: `planning →
(search → planning)* → summary`, mirroring the conditional edges of
`create_agent_graph`.  Fuel bounds the loop; `none` means the graph
did not terminate within fuel. -/
def runDeepSearch (hasTavilyKey : Bool) (planner : Nat → Except Unit String)
    (searcher : String → List String) (maxRounds : Nat) :
    Nat → PlanState → RunCounts → Option RunCounts
  | 0, _, _ => none
  | fuel + 1, state, counts =>
      let st := planningNode state (planner counts.planning)
      let counts' : RunCounts := { counts with planning := counts.planning + 1 }
      match planningRouter maxRounds st with
      | .summary => some { counts' with summary := counts'.summary + 1 }
      | .search =>
          runDeepSearch hasTavilyKey planner searcher maxRounds fuel
            (searchNode hasTavilyKey searcher st)
            { counts' with search := counts'.search + 1 }

lemma parseSearchQueries_ne_nil {s : String} {qs : List String}
    (h : parseSearchQueries s = some qs) : qs.isEmpty = false := by
  unfold parseSearchQueries at h
  split at h
  · exact absurd h (by simp)
  · dsimp only [] at h
    split at h
    · exact absurd h (by simp)
    · rename_i hq
      cases h
      simpa using hq

lemma planningNode_planningRounds (state : PlanState) (outcome : Except Unit String) :
    (planningNode state outcome).planningRounds = state.planningRounds + 1 := by
  unfold planningNode
  cases outcome with
  | error e => rfl
  | ok content => cases h : parseSearchQueries (pyStrip content) <;> simp [h]

lemma searchNode_planningRounds (hasTavilyKey : Bool)
    (searcher : String → List String) (state : PlanState) :
    (searchNode hasTavilyKey searcher state).planningRounds = state.planningRounds := by
  unfold searchNode
  split
  · rfl
  · split <;> rfl

lemma searchNode_question (hasTavilyKey : Bool)
    (searcher : String → List String) (state : PlanState) :
    (searchNode hasTavilyKey searcher state).question = state.question := by
  unfold searchNode
  split
  · rfl
  · split <;> rfl

/-! ## Session store (`app/utils/session_store.py`, `SAVE_SESSION_SCRIPT`)

The Redis state visible to the Lua script: the user's sorted-set index
(member/score pairs), the string keyspace (value and TTL per key;
presence in the list is `GET ≠ nil`) and the TTL of the index key.
The script runs atomically, so it is one state transformer. -/

structure ZEntry where
  member : String
  score : Int
deriving Repr, DecidableEq

structure RedisState where
  index : List ZEntry
  store : List (String × String × Nat)
  indexTtl : Option Nat
deriving Repr, DecidableEq

/-- `redis.call("GET", key)` on the string keyspace. -/
def storeGet (store : List (String × String × Nat)) (key : String) :
    Option (String × Nat) :=
  (store.find? (fun p => p.1 == key)).map (fun p => p.2)

/-- `redis.call("SET", key, value, "EX", ttl)`. -/
def storeSet (store : List (String × String × Nat)) (key value : String)
    (ttl : Nat) : List (String × String × Nat) :=
  (store.filter (fun p => !(p.1 == key))) ++ [(key, value, ttl)]

/-- `redis.call("UNLINK"/"DEL", key)`. -/
def storeDel (store : List (String × String × Nat)) (key : String) :
    List (String × String × Nat) :=
  store.filter (fun p => !(p.1 == key))

/-- `ZPOPMIN` pop order: ascending score, ties by member lexicographic. -/
def zleB (a b : ZEntry) : Bool :=
  a.score < b.score || (a.score == b.score && a.member ≤ b.member)

/-- The sweep phase: every index member whose detail key has expired
(`GET` returns nil) is `ZREM`-ed. -/
def sweepIndex (s : RedisState) : List ZEntry :=
  s.index.filter (fun e => (storeGet s.store e.member).isSome)

/-- `ZADD indexKey score sessionKey`: as a set update (an existing
member gets its score replaced). -/
def zaddEntry (index : List ZEntry) (member : String) (score : Int) :
    List ZEntry :=
  (index.filter (fun e => !(e.member == member))) ++ [⟨member, score⟩]

/-- `SAVE_SESSION_SCRIPT`: sweep expired index entries, `ZADD` the new
session key with the current-millis score, `EXPIRE` the index and
`SET ... EX` the detail, then `ZPOPMIN` the overflow beyond
`maxLoginNum` and delete the popped members' detail keys; the return
value is the number of evicted members (`#member`). -/
def saveSessionScript (s : RedisState) (maxLoginNum : Nat) (score : Int)
    (sessionKey sessionJson : String) (ttlSec : Nat) : RedisState × Nat :=
  let idx2 := zaddEntry (sweepIndex s) sessionKey score
  let store2 := storeSet s.store sessionKey sessionJson ttlSec
  if maxLoginNum < idx2.length then
    let sorted := idx2.mergeSort zleB
    let over := idx2.length - maxLoginNum
    let popped := sorted.take over
    let remaining := sorted.drop over
    let store3 := popped.foldl (fun acc e => storeDel acc e.member) store2
    (⟨remaining, store3, some ttlSec⟩, popped.length)
  else
    (⟨idx2, store2, some ttlSec⟩, 0)

lemma zleB_trans : ∀ (a b c : ZEntry), zleB a b → zleB b c → zleB a c := by
  intro a b c hab hbc
  simp only [zleB, Bool.or_eq_true, Bool.and_eq_true, decide_eq_true_eq,
    beq_iff_eq] at *
  rcases hab with h | ⟨h1, h2⟩ <;> rcases hbc with h' | ⟨h1', h2'⟩
  · exact Or.inl (lt_trans h h')
  · exact Or.inl (h1' ▸ h)
  · exact Or.inl (h1 ▸ h')
  · exact Or.inr ⟨h1.trans h1', le_trans h2 h2'⟩

lemma zleB_total : ∀ (a b : ZEntry), zleB a b || zleB b a := by
  intro a b
  simp only [zleB, Bool.or_eq_true, Bool.and_eq_true, decide_eq_true_eq,
    beq_iff_eq]
  rcases lt_trichotomy a.score b.score with h | h | h
  · exact Or.inl (Or.inl h)
  · rcases le_total a.member b.member with hm | hm
    · exact Or.inl (Or.inr ⟨h, hm⟩)
    · exact Or.inr (Or.inr ⟨h.symm, hm⟩)
  · exact Or.inr (Or.inl h)

lemma storeGet_storeSet_self (store : List (String × String × Nat))
    (key value : String) (ttl : Nat) :
    storeGet (storeSet store key value ttl) key = some (value, ttl) := by
  unfold storeGet storeSet
  rw [List.find?_append]
  have h1 : (store.filter (fun p => !(p.1 == key))).find? (fun p => p.1 == key)
      = none := by
    rw [List.find?_eq_none]
    intro p hp
    have := List.of_mem_filter hp
    simpa using this
  rw [h1]
  simp [List.find?]

lemma storeGet_none_of_del (store : List (String × String × Nat)) (key k : String)
    (h : storeGet store k = none ∨ k = key) :
    storeGet (storeDel store key) k = none := by
  unfold storeGet storeDel
  rw [Option.map_eq_none', List.find?_eq_none]
  intro p hp
  rcases h with h | h
  · unfold storeGet at h
    rw [Option.map_eq_none', List.find?_eq_none] at h
    exact h p (List.mem_of_mem_filter hp)
  · subst h
    have := List.of_mem_filter hp
    simpa using this

lemma foldDel_get_none (popped : List ZEntry) :
    ∀ (store : List (String × String × Nat)) (k : String),
      (storeGet store k = none ∨ ∃ e ∈ popped, e.member = k) →
      storeGet (popped.foldl (fun acc e => storeDel acc e.member) store) k
        = none := by
  induction popped with
  | nil =>
      intro store k h
      rcases h with h | ⟨e, he, _⟩
      · simpa using h
      · exact absurd he (List.not_mem_nil e)
  | cons x xs ih =>
      intro store k h
      simp only [List.foldl_cons]
      rcases h with h | ⟨e, he, hk⟩
      · exact ih _ k (Or.inl (storeGet_none_of_del store x.member k (Or.inl h)))
      · rcases List.mem_cons.mp he with heq | he'
        · exact ih _ k
            (Or.inl (storeGet_none_of_del store x.member k (Or.inr (heq ▸ hk).symm)))
        · exact ih _ k (Or.inr ⟨e, he', hk⟩)

lemma mem_zadd_sweep (s : RedisState) (sessionKey : String) (score : Int) :
    ∀ e ∈ zaddEntry (sweepIndex s) sessionKey score,
      e.member = sessionKey ∨ (e ∈ s.index ∧ (storeGet s.store e.member).isSome) := by
  intro e he
  unfold zaddEntry at he
  rcases List.mem_append.mp he with h | h
  · right
    have h1 := List.mem_of_mem_filter h
    unfold sweepIndex at h1
    exact ⟨(List.mem_filter.mp h1).1, (List.mem_filter.mp h1).2⟩
  · left
    rw [List.mem_singleton.mp h]

/-! ## Hybrid knowledge-base search
(`app/services/embedding_service.py`,
`EmbeddingService.hybrid_search_knowledge_base`)

Inputs: `vectorResults` is the vector top-`2K` candidate list (rank
order, already threshold-filtered), `allChunks` the corpus rows of
the selected knowledge bases, `bm25Scores` the `BM25Okapi.get_scores`
output (one rational score per corpus row; the BM25 library and the
`jieba` tokenizer are oracles).  Per-item payload fields other than
identity, content and `rrf_score` (`similarity`, `file_name`,
`metadata`, `source`) are bookkeeping and are not modelled. -/

structure Doc where
  documentId : String
  chunkIndex : Int
  content : String
deriving Repr, DecidableEq

/-- `key = f"{item['document_id']}_{item['chunk_index']}"`. -/
def docKey (d : Doc) : String :=
  d.documentId ++ "_" ++ toString d.chunkIndex

/-- `sorted(range(len(bm25_scores)), key=..., reverse=True)[:top_k*2]`:
indices in stable descending score order, truncated to `2K`. -/
def bm25TopIndices (allChunks : List Doc) (bm25Scores : List ℚ) (topK : Nat) :
    List Nat :=
  ((List.range allChunks.length).mergeSort
    (fun i j => decide (bm25Scores.getD j 0 ≤ bm25Scores.getD i 0))).take (topK * 2)

/-- The BM25 top-`2K` result list (`bm25_results`). -/
def bm25Candidates (allChunks : List Doc) (bm25Scores : List ℚ) (topK : Nat) :
    List Doc :=
  (bm25TopIndices allChunks bm25Scores topK).map
    (fun i => allChunks.getD i ⟨"", 0, ""⟩)

/-- `rrf_scores[key] = rrf_scores.get(key, 0) + v` on the
insertion-ordered score dict. -/
def addRrf (scores : List (String × ℚ)) (key : String) (v : ℚ) :
    List (String × ℚ) :=
  if scores.any (fun p => p.1 == key) then
    scores.map (fun p => if p.1 == key then (p.1, p.2 + v) else p)
  else scores ++ [(key, v)]

/-- One ranking's pass over the score dict:
`for rank, item in enumerate(results): rrf_scores[key] += 1/(k + rank + 1)`
with `k = 60` and 0-based `rank`. -/
def rrfAux (i : Nat) : List Doc → List (String × ℚ) → List (String × ℚ)
  | [], m => m
  | d :: rest, m =>
      rrfAux (i + 1) rest (addRrf m (docKey d) (1 / (60 + (i : ℚ) + 1)))

def rrfAfter (items : List Doc) (m : List (String × ℚ)) : List (String × ℚ) :=
  rrfAux 0 items m

/-- `rrf_scores[key]` with default 0 (`rrf_scores.get(key, 0)`). -/
def qLookup (m : List (String × ℚ)) (key : String) : ℚ :=
  ((m.find? (fun p => p.1 == key)).map (fun p => p.2)).getD 0

/-- The reciprocal-rank term of one ranking for a key: `1/(60 + rank)`
with 1-based rank, 0 when the key is not ranked. -/
def rankTerm (keys : List String) (k : String) : ℚ :=
  if k ∈ keys then 1 / (60 + (keys.indexOf k : ℚ) + 1) else 0

/-- `content_map[key] = item` (vector pass: unconditional write). -/
def cmWrite (m : List (String × Doc)) (d : Doc) : List (String × Doc) :=
  if m.any (fun p => p.1 == docKey d) then
    m.map (fun p => if p.1 == docKey d then (p.1, d) else p)
  else m ++ [(docKey d, d)]

/-- `if key not in content_map: content_map[key] = item` (BM25 pass). -/
def cmWriteIfAbsent (m : List (String × Doc)) (d : Doc) : List (String × Doc) :=
  if m.any (fun p => p.1 == docKey d) then m else m ++ [(docKey d, d)]

/-- An item of the final fused list; `rrfScore` is `none` only on the
empty-corpus early return, which skips fusion. -/
structure FusedDoc where
  doc : Doc
  rrfScore : Option ℚ
deriving Repr, DecidableEq

/-- `rrf_scores` after the vector pass then the BM25 pass. -/
def fusedScores (vectorResults allChunks : List Doc) (bm25Scores : List ℚ)
    (topK : Nat) : List (String × ℚ) :=
  rrfAfter (bm25Candidates allChunks bm25Scores topK) (rrfAfter vectorResults [])

/-- `content_map` after the vector pass (overwrite) then the BM25 pass
(insert-if-absent). -/
def contentMapOf (vectorResults allChunks : List Doc) (bm25Scores : List ℚ)
    (topK : Nat) : List (String × Doc) :=
  (bm25Candidates allChunks bm25Scores topK).foldl cmWriteIfAbsent
    (vectorResults.foldl cmWrite [])

/-- `rrf_scores` after the mode filter: in `intersection` mode only
keys present in both candidate lists survive. -/
def filteredScoresOf (vectorResults allChunks : List Doc) (bm25Scores : List ℚ)
    (topK : Nat) (mode : String) : List (String × ℚ) :=
  if mode == "intersection" then
    (fusedScores vectorResults allChunks bm25Scores topK).filter (fun p =>
      vectorResults.any (fun d => docKey d == p.1)
        && (bm25Candidates allChunks bm25Scores topK).any
            (fun d => docKey d == p.1))
  else fusedScores vectorResults allChunks bm25Scores topK

/-- `sorted(rrf_scores.keys(), key=lambda x: rrf_scores[x],
reverse=True)`. -/
def sortedKeysOf (vectorResults allChunks : List Doc) (bm25Scores : List ℚ)
    (topK : Nat) (mode : String) : List String :=
  ((filteredScoresOf vectorResults allChunks bm25Scores topK mode).map
      (fun p => p.1)).mergeSort
    (fun a b => decide
      (qLookup (filteredScoresOf vectorResults allChunks bm25Scores topK mode) b
        ≤ qLookup (filteredScoresOf vectorResults allChunks bm25Scores topK mode) a))

/-- `EmbeddingService.hybrid_search_knowledge_base` after the two
retrievals: early return of the plain vector top-K when the corpus is
empty; otherwise BM25 ranking, RRF accumulation over both rankings,
intersection filtering when requested, and the top-K keys by
descending RRF score resolved through `content_map`. -/
def hybridSearchKb (vectorResults allChunks : List Doc) (bm25Scores : List ℚ)
    (topK : Nat) (mode : String) : List FusedDoc :=
  if allChunks.isEmpty then
    (vectorResults.take topK).map (fun d => ⟨d, none⟩)
  else
    ((sortedKeysOf vectorResults allChunks bm25Scores topK mode).take
        topK).filterMap (fun k =>
      ((contentMapOf vectorResults allChunks bm25Scores topK).find?
          (fun p => p.1 == k)).map
        (fun p =>
          ⟨p.2, some (qLookup
            (filteredScoresOf vectorResults allChunks bm25Scores topK mode) k)⟩))

lemma find?_map_pred {α : Type} (l : List α) (q : α → Bool) (g : α → α)
    (hg : ∀ a, q (g a) = q a) :
    (l.map g).find? q = (l.find? q).map g := by
  induction l with
  | nil => rfl
  | cons a t ih =>
      by_cases h : q a = true
      · simp [List.find?_cons, hg, h]
      · simp only [Bool.not_eq_true] at h
        simp [List.find?_cons, hg, h, ih]

lemma any_map_pred {α : Type} (l : List α) (q : α → Bool) (g : α → α)
    (hg : ∀ a, q (g a) = q a) :
    (l.map g).any q = l.any q := by
  induction l with
  | nil => rfl
  | cons a t ih => simp [List.any_cons, hg, ih]

lemma qLookup_addRrf (m : List (String × ℚ)) (key k : String) (v : ℚ) :
    qLookup (addRrf m key v) k = qLookup m k + (if k = key then v else 0) := by
  unfold addRrf qLookup
  by_cases hany : m.any (fun p => p.1 == key) = true
  · rw [if_pos hany]
    have hg : ∀ p : String × ℚ,
        (fun p : String × ℚ => p.1 == k)
          ((fun p : String × ℚ => if p.1 == key then (p.1, p.2 + v) else p) p)
        = ((fun p : String × ℚ => p.1 == k) p) := by
      intro p
      simp only []
      split <;> rfl
    rw [find?_map_pred m (fun p => p.1 == k) _ hg]
    by_cases hk : k = key
    · subst hk
      cases hfind : m.find? (fun p => p.1 == k) with
      | none =>
          rw [List.any_eq_true] at hany
          obtain ⟨p, hp, hpk⟩ := hany
          rw [List.find?_eq_none] at hfind
          exact absurd hpk (hfind p hp)
      | some q =>
          have hq := List.find?_some hfind
          simp only [] at hq
          rw [beq_iff_eq] at hq
          simp [hq]
    · cases hfind : m.find? (fun p => p.1 == k) with
      | none => simp [hk]
      | some q =>
          have hq := List.find?_some hfind
          simp only [] at hq
          rw [beq_iff_eq] at hq
          simp [hq, hk]
  · rw [if_neg hany]
    rw [List.find?_append]
    by_cases hk : k = key
    · subst hk
      have hnone : m.find? (fun p => p.1 == k) = none := by
        rw [List.find?_eq_none]
        intro p hp
        rw [List.any_eq_true] at hany
        exact fun hc => hany ⟨p, hp, hc⟩
      simp [hnone, List.find?]
    · have hne : ((key, v).1 == k) = false := by
        simpa using fun hc => hk hc.symm
      simp [List.find?, hne, hk]

lemma any_addRrf (m : List (String × ℚ)) (key k : String) (v : ℚ) :
    (addRrf m key v).any (fun p => p.1 == k)
      = (m.any (fun p => p.1 == k) || (key == k)) := by
  unfold addRrf
  by_cases hany : m.any (fun p => p.1 == key) = true
  · rw [if_pos hany]
    have hg : ∀ p : String × ℚ,
        (fun p : String × ℚ => p.1 == k)
          ((fun p : String × ℚ => if p.1 == key then (p.1, p.2 + v) else p) p)
        = ((fun p : String × ℚ => p.1 == k) p) := by
      intro p
      simp only []
      split <;> rfl
    rw [any_map_pred m (fun p => p.1 == k) _ hg]
    by_cases hk : key = k
    · subst hk
      simp only [beq_self_eq_true, Bool.or_true]
      exact hany
    · have : (key == k) = false := by simpa using hk
      simp [this]
  · rw [if_neg hany, List.any_append]
    simp [List.any]

lemma qLookup_rrfAux (lst : List Doc) :
    ∀ (i : Nat) (m : List (String × ℚ)) (k : String),
      (lst.map docKey).Nodup →
      qLookup (rrfAux i lst m) k
        = qLookup m k
          + (if k ∈ lst.map docKey then
              1 / (60 + (i : ℚ) + ((lst.map docKey).indexOf k : ℚ) + 1) else 0) := by
  induction lst with
  | nil => intro i m k _; simp [rrfAux]
  | cons d rest ih =>
      intro i m k hnd
      have hcons : (docKey d :: rest.map docKey).Nodup := by
        simpa using hnd
      have hnd' : (rest.map docKey).Nodup := (List.nodup_cons.mp hcons).2
      have hdk : docKey d ∉ rest.map docKey := (List.nodup_cons.mp hcons).1
      unfold rrfAux
      rw [ih (i + 1) _ k hnd', qLookup_addRrf]
      by_cases hk : k = docKey d
      · subst hk
        rw [if_neg hdk]
        have hmem : docKey d ∈ (d :: rest).map docKey := by simp
        rw [if_pos hmem, if_pos rfl]
        have hidx : ((d :: rest).map docKey).indexOf (docKey d) = 0 := by
          simp [List.indexOf_cons_self]
        rw [hidx]
        push_cast
        ring
      · rw [if_neg hk]
        by_cases hmem : k ∈ rest.map docKey
        · have hmem' : k ∈ (d :: rest).map docKey := by simp [hmem]
          rw [if_pos hmem, if_pos hmem']
          have hidx : ((d :: rest).map docKey).indexOf k
              = (rest.map docKey).indexOf k + 1 := by
            simp only [List.map_cons]
            rw [List.indexOf_cons_ne _ (by simpa using fun hc => hk hc.symm)]
          rw [hidx]
          push_cast
          ring
        · have hmem' : k ∉ (d :: rest).map docKey := by
            simp only [List.map_cons, List.mem_cons]
            rintro (hc | hc)
            · exact hk hc
            · exact hmem hc
          rw [if_neg hmem, if_neg hmem']
          ring

lemma any_rrfAux (lst : List Doc) :
    ∀ (i : Nat) (m : List (String × ℚ)) (k : String),
      (rrfAux i lst m).any (fun p => p.1 == k)
        = (m.any (fun p => p.1 == k) || lst.any (fun d => docKey d == k)) := by
  induction lst with
  | nil => intro i m k; simp [rrfAux]
  | cons d rest ih =>
      intro i m k
      unfold rrfAux
      rw [ih, any_addRrf]
      simp [Bool.or_assoc]

lemma mem_cmWrite {m : List (String × Doc)} {d : Doc} {p : String × Doc}
    (hp : p ∈ cmWrite m d) : p ∈ m ∨ (p.1 = docKey d ∧ p.2 = d) := by
  unfold cmWrite at hp
  split at hp
  · rw [List.mem_map] at hp
    obtain ⟨q, hq, hqe⟩ := hp
    by_cases hqd : (q.1 == docKey d) = true
    · rw [if_pos hqd] at hqe
      right
      rw [← hqe]
      exact ⟨by simpa using hqd, rfl⟩
    · rw [if_neg hqd] at hqe
      exact Or.inl (hqe ▸ hq)
  · rcases List.mem_append.mp hp with h | h
    · exact Or.inl h
    · right
      rw [List.mem_singleton.mp h]
      exact ⟨rfl, rfl⟩

lemma mem_cmWriteIfAbsent {m : List (String × Doc)} {d : Doc} {p : String × Doc}
    (hp : p ∈ cmWriteIfAbsent m d) : p ∈ m ∨ (p.1 = docKey d ∧ p.2 = d) := by
  unfold cmWriteIfAbsent at hp
  split at hp
  · exact Or.inl hp
  · rcases List.mem_append.mp hp with h | h
    · exact Or.inl h
    · right
      rw [List.mem_singleton.mp h]
      exact ⟨rfl, rfl⟩

lemma mem_foldl_cm (step : List (String × Doc) → Doc → List (String × Doc))
    (hstep : ∀ m d p, p ∈ step m d → p ∈ m ∨ (p.1 = docKey d ∧ p.2 = d)) :
    ∀ (ds : List Doc) (m₀ : List (String × Doc)) (p : String × Doc),
      p ∈ ds.foldl step m₀ → p ∈ m₀ ∨ ∃ d ∈ ds, p.1 = docKey d ∧ p.2 = d := by
  intro ds
  induction ds with
  | nil => intro m₀ p hp; exact Or.inl hp
  | cons d rest ih =>
      intro m₀ p hp
      rcases ih (step m₀ d) p hp with h | ⟨d', hd', he⟩
      · rcases hstep m₀ d p h with h' | h'
        · exact Or.inl h'
        · exact Or.inr ⟨d, List.mem_cons_self d rest, h'⟩
      · exact Or.inr ⟨d', List.mem_cons_of_mem d hd', he⟩

/-- Every content-map entry keys its own document, and the document
comes from one of the two candidate lists. -/
lemma contentMap_inv (vector bm25 : List Doc) (p : String × Doc)
    (hp : p ∈ bm25.foldl cmWriteIfAbsent (vector.foldl cmWrite [])) :
    p.1 = docKey p.2 ∧ (p.2 ∈ vector ∨ p.2 ∈ bm25) := by
  rcases mem_foldl_cm cmWriteIfAbsent (fun m d p h => mem_cmWriteIfAbsent h)
      bm25 _ p hp with h | ⟨d, hd, h1, h2⟩
  · rcases mem_foldl_cm cmWrite (fun m d p h => mem_cmWrite h)
        vector _ p h with h' | ⟨d, hd, h1, h2⟩
    · exact absurd h' (List.not_mem_nil p)
    · exact ⟨h2 ▸ h1, Or.inl (h2 ▸ hd)⟩
  · exact ⟨h2 ▸ h1, Or.inr (h2 ▸ hd)⟩

lemma pairwise_of_total {α : Type} (R : α → α → Prop) (h : ∀ a b, R a b) :
    ∀ l : List α, l.Pairwise R := by
  intro l
  induction l with
  | nil => exact List.Pairwise.nil
  | cons a t ih => exact List.Pairwise.cons (fun b _ => h a b) ih

end Agent

/-- C2. For every streamed turn, the concatenation of the `content`
fields of the emitted `chunk` records equals the content of the
persisted assistant message, and the final `done` record's
`tokenCount` equals the length of that persisted content. -/
theorem c2_chunk_concat_eq_persisted_content (hasModel : Bool) (content : String)
    (events : List Agent.RawEvent) :
    String.join
        (((Agent.chatServiceStream hasModel content events).events.filter
            (fun ev => ev.type == "chunk")).map (fun ev => ev.content))
      = (Agent.chatServiceStream hasModel content events).assistantMessage.content
    ∧ (Agent.chatServiceStream hasModel content events).events.getLast?
      = some ⟨"done", "",
          some (Agent.chatServiceStream hasModel content events).assistantMessage.content.length⟩ := by
  unfold Agent.chatServiceStream
  cases hasModel with
  | false => simp
  | true =>
      refine ⟨?_, by simp⟩
      simp only [List.filter_append, List.map_append]
      have h := Agent.filter_chunks_streamStep events ([], []) (by simp)
      simp [h]

/-- C6 counterexample: the event loop forwards every
`on_chat_model_stream` event with non-empty chunk content, so a token
produced inside the `planning` node is forwarded as well — the
output-node whitelist claimed by the spec does not exist. -/
theorem c6_counterexample : ¬ Agent.onlyOutputNodesForwarded := by
  intro h
  have := h ⟨"on_chat_model_stream", "planning", some "x"⟩ (by decide)
  rcases this with h' | h' <;> simp at h'

/-- C6 (amended). Forwarding depends only on the event kind and the
chunk content, never on the producing node: any `on_chat_model_stream`
event with non-empty content is forwarded as a `chunk` record —
including tokens produced inside `planning` or `rewrite`. -/
theorem c6_forwarding_ignores_node :
    (∀ (e : Agent.RawEvent) (n : String),
        Agent.forwardsToken ⟨e.kind, n, e.chunkContent⟩ = Agent.forwardsToken e)
    ∧ (Agent.chatServiceStream true "hi"
          [⟨"on_chat_model_stream", "planning", some "leak"⟩]).events
        = [⟨"chunk", "leak", none⟩, ⟨"done", "", some 4⟩] := by
  constructor
  · intro e n; rfl
  · rfl

/-- C1. `ChatService.stream` does not implement regeneration: the
`/chat/stream` route passes the keyword arguments `regenerate` and
`parent_message_id`, which the method does not declare (the call
raises `TypeError`); and, keywords aside, the pipeline unconditionally
persists a new user message and persists the assistant message with
`parent_id = None`, so no sibling branch is ever created. -/
theorem c1_stream_lacks_regenerate :
    Agent.pythonCallAccepted Agent.chatServiceStreamParams Agent.streamChatCallKwargs = false
    ∧ ("regenerate" ∈ Agent.streamChatCallKwargs
        ∧ "regenerate" ∉ Agent.chatServiceStreamParams)
    ∧ ∀ (hasModel : Bool) (content : String) (events : List Agent.RawEvent),
        (Agent.chatServiceStream hasModel content events).userMessage
            = ⟨"user", content, none, 0⟩
        ∧ (Agent.chatServiceStream hasModel content events).assistantMessage.parentId = none := by
  refine ⟨by decide, ⟨by decide, by decide⟩, ?_⟩
  intro hasModel content events
  exact ⟨rfl, rfl⟩

/-- C7 counterexample: persisting a message into a conversation whose
`current_message_id` is 5 leaves it at 5; `persist_message` never
touches `current_message_id` (it only sets `last_message_id` and
`last_message_at`). -/
theorem c7_counterexample : ¬ Agent.persistMessageUpdatesCurrent := by
  intro h
  have := h ⟨[⟨100, none, none, some 5⟩], []⟩ 100 1 "user" "hi" "TEXT" none 0 none none 10 7
      ⟨100, some 10, some 7, some 5⟩ (by decide) rfl
  exact absurd this (by decide)

/-- C7 (amended). `persist_message` inserts a message row carrying the
given optional `parent_id` and `checkpoint_id` and updates the owning
conversation's `last_message_id` and `last_message_at` to the newly
inserted row; `current_message_id` is left unchanged on every
conversation. -/
theorem c7_persist_message (db : Agent.Db) (conversationId : Nat) (senderId : Int)
    (role content contentType : String) (modelCode : Option String)
    (tokenCount : Nat) (parentId : Option Nat) (checkpointId : Option String)
    (newId createTime : Nat) :
    (Agent.persistMessage db conversationId senderId role content contentType
        modelCode tokenCount parentId checkpointId newId createTime).1.messages
      = db.messages
        ++ [(Agent.persistMessage db conversationId senderId role content contentType
              modelCode tokenCount parentId checkpointId newId createTime).2]
    ∧ (Agent.persistMessage db conversationId senderId role content contentType
          modelCode tokenCount parentId checkpointId newId createTime).2
      = { id := newId, conversationId := conversationId, senderId := senderId
          role := role, content := content, contentType := contentType
          modelCode := modelCode, tokenCount := tokenCount, parentId := parentId
          checkpointId := checkpointId, createTime := createTime }
    ∧ (Agent.persistMessage db conversationId senderId role content contentType
          modelCode tokenCount parentId checkpointId newId createTime).1.conversations.find?
          (fun c => c.id == conversationId)
      = (db.conversations.find? (fun c => c.id == conversationId)).map
          (fun c => { c with lastMessageId := some newId, lastMessageAt := some createTime })
    ∧ (Agent.persistMessage db conversationId senderId role content contentType
          modelCode tokenCount parentId checkpointId newId createTime).1.conversations.map
          (fun c => c.currentMessageId)
      = db.conversations.map (fun c => c.currentMessageId) := by
  refine ⟨rfl, rfl, ?_, ?_⟩
  · exact Agent.find?_map_update db.conversations _ _ (fun a => rfl)
  · show (db.conversations.map _).map _ = _
    rw [List.map_map]
    apply List.map_congr_left
    intro a _
    simp only [Function.comp_apply]
    split <;> rfl

lemma mergeSort_pair {α : Type} (le : α → α → Bool) (a b : α) :
    List.mergeSort [a, b] le = if le a b then [a, b] else [b, a] := by
  rw [List.mergeSort]
  by_cases h : le a b <;> simp [List.splitInTwo, List.merge, h]

/-- C8 counterexample: with two siblings sharing `create_time` but
stored with the larger id first, `get_sibling_messages` (which orders
by `create_time` alone) returns `["2", "1"]`, not the `(create_time,
id)`-ascending order `["1", "2"]` the spec states. -/
theorem c8_counterexample : ¬ Agent.siblingsOrderedByCreateTimeAndId := by
  intro h
  have hres := h Agent.c8Table 2 (Agent.c8Row 2) 9 (by decide) rfl
  have hfil : Agent.c8Table.filter (fun r => r.parentId == some 9)
      = [Agent.c8Row 2, Agent.c8Row 1] := by decide
  rw [hfil, mergeSort_pair] at hres
  have hL : (Agent.getSiblingMessages Agent.c8Table 2).siblings = ["2", "1"] := by
    show ((Agent.c8Table.filter (fun r => r.parentId == some 9)).mergeSort
        (fun a b => decide (a.createTime ≤ b.createTime))).map (fun r => toString r.id)
      = ["2", "1"]
    rw [hfil, mergeSort_pair]
    decide
  rw [hL] at hres
  revert hres
  decide

/-- C8 (amended). `get_sibling_messages` returns the ids of all
messages sharing `parent_id` with the given message ordered by
`create_time` ascending — ties are left in table order, there is no
`id` tie-break — together with the 0-based index of the given id in
that order, and `total` equal to the number of siblings; for a missing
message or one with null `parent_id` it returns
`{siblings = [self], current = 0, total = 1}`. -/
theorem c8_sibling_messages (table : List Agent.MessageRow) (messageId : Nat) :
    ((table.find? (fun r => r.id == messageId) = none →
        Agent.getSiblingMessages table messageId = ⟨0, 1, [toString messageId]⟩)
      ∧ ∀ m, table.find? (fun r => r.id == messageId) = some m → m.parentId = none →
          Agent.getSiblingMessages table messageId = ⟨0, 1, [toString messageId]⟩)
    ∧ ∀ m pid, table.find? (fun r => r.id == messageId) = some m →
        m.parentId = some pid →
        ∃ ordered : List Agent.MessageRow,
          ordered.Perm (table.filter (fun r => r.parentId == some pid))
          ∧ ordered.Pairwise (fun a b => a.createTime ≤ b.createTime)
          ∧ (Agent.getSiblingMessages table messageId).siblings
              = ordered.map (fun r => toString r.id)
          ∧ (Agent.getSiblingMessages table messageId).total
              = (Agent.getSiblingMessages table messageId).siblings.length
          ∧ toString messageId ∈ (Agent.getSiblingMessages table messageId).siblings
          ∧ (Agent.getSiblingMessages table messageId).current
              = ((Agent.getSiblingMessages table messageId).siblings).indexOf
                  (toString messageId) := by
  refine ⟨⟨?_, ?_⟩, ?_⟩
  · intro h; simp [Agent.getSiblingMessages, h]
  · intro m hm hp; simp [Agent.getSiblingMessages, hm, hp]
  · intro m pid hm hp
    have hmidEq : m.id = messageId := by
      have := List.find?_some hm
      simpa using this
    have hmemTable : m ∈ table := List.mem_of_find?_eq_some hm
    have hmemFilter : m ∈ table.filter (fun r => r.parentId == some pid) := by
      rw [List.mem_filter]
      exact ⟨hmemTable, by simp [hp]⟩
    refine ⟨(table.filter (fun r => r.parentId == some pid)).mergeSort
        (fun a b => decide (a.createTime ≤ b.createTime)), ?_, ?_, ?_⟩
    · exact List.mergeSort_perm _ _
    · have hs := @List.sorted_mergeSort Agent.MessageRow
        (fun a b : Agent.MessageRow => decide (a.createTime ≤ b.createTime))
        (fun a b c hab hbc => by
          simp only [decide_eq_true_eq] at *
          omega)
        (fun a b => by
          simp only [Bool.or_eq_true, decide_eq_true_eq]
          omega)
        (table.filter (fun r => r.parentId == some pid))
      exact hs.imp (fun h => by simpa using h)
    · have hmemSort : m ∈ (table.filter (fun r => r.parentId == some pid)).mergeSort
          (fun a b => decide (a.createTime ≤ b.createTime)) := by
        rw [List.mem_mergeSort]; exact hmemFilter
      have hmemSib : toString messageId
          ∈ ((table.filter (fun r => r.parentId == some pid)).mergeSort
              (fun a b => decide (a.createTime ≤ b.createTime))).map
              (fun r => toString r.id) := by
        rw [← hmidEq]
        exact List.mem_map_of_mem _ hmemSort
      refine ⟨?_, ?_, ?_, ?_⟩
      · simp [Agent.getSiblingMessages, hm, hp]
      · simp [Agent.getSiblingMessages, hm, hp]
      · simp only [Agent.getSiblingMessages, hm, hp]
        exact hmemSib
      · simp only [Agent.getSiblingMessages, hm, hp]
        rw [if_pos hmemSib]

/-- C9. A failure inside the retrieval layer (the history semantic
search or the knowledge-base hybrid search raising any exception)
degrades the corresponding context string to `""`, and the
`context_retrieval` node still returns a patch — the exception never
propagates and never fails the turn. -/
theorem c9_retrieval_failure_degrades (hasService hasDb : Bool)
    (conversationId : Option Nat) (knowledgeBaseIds : List Nat)
    (messages : List Agent.ChatMsg)
    (historyOutcome : Except String (List Agent.HistoryHit))
    (kbOutcome : Except String (List Agent.KbHit)) (eh ek : String)
    (hh : historyOutcome = .error eh) (hk : kbOutcome = .error ek) :
    Agent.getHistoryContext hasService hasDb conversationId historyOutcome = ""
    ∧ Agent.getKbContext hasService hasDb knowledgeBaseIds kbOutcome = ""
    ∧ Agent.contextNode messages hasService hasDb conversationId knowledgeBaseIds
        historyOutcome kbOutcome = ⟨"", ""⟩ := by
  subst hh hk
  have h1 : Agent.getHistoryContext hasService hasDb conversationId (.error eh) = "" := by
    unfold Agent.getHistoryContext; split <;> rfl
  have h2 : Agent.getKbContext hasService hasDb knowledgeBaseIds (.error ek) = "" := by
    unfold Agent.getKbContext; split <;> rfl
  refine ⟨h1, h2, ?_⟩
  unfold Agent.contextNode
  rw [h1, h2]
  simp only [ite_self]

/-- C10. For every history and queried checkpoint id,
`get_sibling_checkpoints` returns a view whose `siblings` contain the
queried id, whose `total` equals the length of `siblings` and is at
least 1, and whose `current` is a valid index into `siblings` —
including when the thread has no checkpoint history or the queried
checkpoint is not found. -/
theorem c10_sibling_checkpoints_invariants (history : List Agent.HistEntry)
    (checkpointId : String) :
    checkpointId ∈ (Agent.getSiblingCheckpoints history checkpointId).siblings
    ∧ (Agent.getSiblingCheckpoints history checkpointId).total
        = (Agent.getSiblingCheckpoints history checkpointId).siblings.length
    ∧ 1 ≤ (Agent.getSiblingCheckpoints history checkpointId).total
    ∧ (Agent.getSiblingCheckpoints history checkpointId).current
        < (Agent.getSiblingCheckpoints history checkpointId).total := by
  unfold Agent.getSiblingCheckpoints
  have hfb : checkpointId ∈ ([checkpointId] : List String) := List.mem_singleton_self _
  split
  · exact ⟨hfb, rfl, le_refl 1, Nat.zero_lt_one⟩
  · split
    · exact ⟨hfb, rfl, le_refl 1, Nat.zero_lt_one⟩
    · split
      · exact ⟨hfb, rfl, le_refl 1, Nat.zero_lt_one⟩
      · rename_i current hcur anchorId hanch
        have hmem := Agent.mem_siblingListFor history checkpointId anchorId
        have hlen : 0 < (Agent.siblingListFor history checkpointId anchorId).length :=
          List.length_pos.mpr (List.ne_nil_of_mem hmem)
        refine ⟨hmem, rfl, hlen, ?_⟩
        show (if checkpointId ∈ Agent.siblingListFor history checkpointId anchorId
            then (Agent.siblingListFor history checkpointId anchorId).indexOf checkpointId
            else (Agent.siblingListFor history checkpointId anchorId).length - 1)
          < (Agent.siblingListFor history checkpointId anchorId).length
        rw [if_pos hmem]
        exact List.indexOf_lt_length.mpr hmem

/-- Witness for C9 at a concrete failing retrieval. -/
theorem c9_retrieval_failure_degrades_witness :
    Agent.getHistoryContext true true (some 1) (.error "boom") = ""
    ∧ Agent.getKbContext true true [1] (.error "db down") = ""
    ∧ Agent.contextNode [⟨"human", "hi"⟩] true true (some 1) [1]
        (.error "boom") (.error "db down") = ⟨"", ""⟩ :=
  c9_retrieval_failure_degrades true true (some 1) [1] [⟨"human", "hi"⟩]
    (.error "boom") (.error "db down") "boom" "db down" rfl rfl

/-- C4. In deep-search mode every run of the planning node increments
`planning_rounds` by one; the planning router routes to `summary`
whenever `planning_rounds ≥ deep_search_max_rounds`; and with
`deep_search_max_rounds = 2` and a planner that always returns
queries, the loop terminates with `planning` run exactly 2 times,
`search` at most 2 times (in fact once) and `summary` exactly once. -/
theorem c4_deep_search_cap :
    (∀ (state : Agent.PlanState) (outcome : Except Unit String),
        (Agent.planningNode state outcome).planningRounds = state.planningRounds + 1)
    ∧ (∀ (maxRounds : Nat) (state : Agent.PlanState),
        maxRounds ≤ state.planningRounds →
        Agent.planningRouter maxRounds state = .summary)
    ∧ ∀ (hasKey : Bool) (planner : Nat → Except Unit String)
        (searcher : String → List String) (init : Agent.PlanState),
        init.planningRounds = 0 →
        (∀ n, ∃ out qs, planner n = .ok out
            ∧ Agent.parseSearchQueries (Agent.pyStrip out) = some qs) →
        ∃ c : Agent.RunCounts,
          Agent.runDeepSearch hasKey planner searcher 2 100 init ⟨0, 0, 0⟩ = some c
          ∧ c.planning = 2 ∧ c.search ≤ 2 ∧ c.summary = 1 := by
  refine ⟨?_, ?_, ?_⟩
  · exact Agent.planningNode_planningRounds
  · intro maxRounds state h
    unfold Agent.planningRouter
    rw [if_pos h]
  · intro hasKey planner searcher init h0 hp
    obtain ⟨out0, qs0, hpl0, hq0⟩ := hp 0
    obtain ⟨out1, qs1, hpl1, hq1⟩ := hp 1
    have hne0 := Agent.parseSearchQueries_ne_nil hq0
    have hst1 : Agent.planningNode init (planner 0)
        = ⟨init.messages,
            if init.question == "" then Agent.lastHumanContent init.messages
            else init.question,
            qs0, init.references, init.planningRounds + 1⟩ := by
      rw [hpl0]
      unfold Agent.planningNode
      dsimp only []
      rw [hq0]
    have hroute1 : Agent.planningRouter 2 (Agent.planningNode init (planner 0))
        = .search := by
      rw [hst1]
      unfold Agent.planningRouter
      rw [if_neg (by simp [h0]), if_pos (by simp [hne0])]
    have hrounds2 : (Agent.searchNode hasKey searcher
        (Agent.planningNode init (planner 0))).planningRounds = 1 := by
      rw [Agent.searchNode_planningRounds, hst1, h0]
    have hst3 : (Agent.planningNode
        (Agent.searchNode hasKey searcher (Agent.planningNode init (planner 0)))
        (planner 1)).planningRounds = 2 := by
      rw [Agent.planningNode_planningRounds, hrounds2]
    have hroute2 : Agent.planningRouter 2 (Agent.planningNode
        (Agent.searchNode hasKey searcher (Agent.planningNode init (planner 0)))
        (planner 1)) = .summary := by
      unfold Agent.planningRouter
      rw [if_pos (by rw [hst3])]
    refine ⟨⟨2, 1, 1⟩, ?_, rfl, by norm_num, rfl⟩
    show Agent.runDeepSearch hasKey planner searcher 2 (99 + 1) init ⟨0, 0, 0⟩
      = some ⟨2, 1, 1⟩
    rw [Agent.runDeepSearch]
    simp only []
    rw [hroute1]
    show Agent.runDeepSearch hasKey planner searcher 2 (98 + 1)
        (Agent.searchNode hasKey searcher (Agent.planningNode init (planner 0)))
        ⟨1, 1, 0⟩ = some ⟨2, 1, 1⟩
    rw [Agent.runDeepSearch]
    simp only []
    rw [hroute2]

/-- Witness for C4 at a concrete planner that always returns the
queries `北京; 上海`. -/
theorem c4_deep_search_cap_witness :
    (Agent.planningNode ⟨[], "q", ["x"], [], 3⟩ (.error ())).planningRounds = 4
    ∧ Agent.planningRouter 2 ⟨[], "q", ["x"], [], 2⟩ = .summary
    ∧ ∃ c : Agent.RunCounts,
        Agent.runDeepSearch true (fun _ => .ok " 北京; 上海 ") (fun _ => ["r"]) 2 100
          ⟨[], "q", [], [], 0⟩ ⟨0, 0, 0⟩ = some c
        ∧ c.planning = 2 ∧ c.search ≤ 2 ∧ c.summary = 1 :=
  ⟨c4_deep_search_cap.1 ⟨[], "q", ["x"], [], 3⟩ (.error ()),
   c4_deep_search_cap.2.1 2 ⟨[], "q", ["x"], [], 2⟩ (by decide),
   c4_deep_search_cap.2.2 true (fun _ => .ok " 北京; 上海 ") (fun _ => ["r"])
     ⟨[], "q", [], [], 0⟩ rfl
     (fun n => ⟨" 北京; 上海 ", ["北京", "上海"], rfl, by decide⟩)⟩

/-- Witness for C8 (amended) at the concrete table: the missing-id and
null-parent fallbacks, and the main sibling query on message 2. -/
theorem c8_sibling_messages_witness :
    Agent.getSiblingMessages Agent.c8Table 999 = ⟨0, 1, [toString (999 : Nat)]⟩
    ∧ Agent.getSiblingMessages Agent.c8Table 9 = ⟨0, 1, [toString (9 : Nat)]⟩
    ∧ ∃ ordered : List Agent.MessageRow,
        ordered.Perm (Agent.c8Table.filter (fun r => r.parentId == some 9))
        ∧ ordered.Pairwise (fun a b => a.createTime ≤ b.createTime)
        ∧ (Agent.getSiblingMessages Agent.c8Table 2).siblings
            = ordered.map (fun r => toString r.id)
        ∧ (Agent.getSiblingMessages Agent.c8Table 2).total
            = (Agent.getSiblingMessages Agent.c8Table 2).siblings.length
        ∧ toString (2 : Nat) ∈ (Agent.getSiblingMessages Agent.c8Table 2).siblings
        ∧ (Agent.getSiblingMessages Agent.c8Table 2).current
            = ((Agent.getSiblingMessages Agent.c8Table 2).siblings).indexOf
                (toString (2 : Nat)) :=
  ⟨(c8_sibling_messages Agent.c8Table 999).1.1 (by decide),
   (c8_sibling_messages Agent.c8Table 9).1.2
     { id := 9, conversationId := 100, senderId := 1, role := "user"
       content := "q", contentType := "TEXT", modelCode := none, tokenCount := 1
       parentId := none, checkpointId := none, createTime := 4 } (by decide) rfl,
   (c8_sibling_messages Agent.c8Table 2).2 (Agent.c8Row 2) 9 (by decide) rfl⟩

/-- C3. From any Redis state, one run of the atomic session-save
script: (cardinality) leaves the per-user index with at most
`maxLoginNum` members; (sweep) every surviving index entry is the new
token or an original entry whose detail key was live; (insert) the new
token is added with the given score, its detail key is written with
the TTL, and the index key gets the TTL; (evict) some list of
lowest-score members — exactly the overflow beyond `maxLoginNum` — is
popped, their detail keys are deleted, and the script returns their
count. -/
theorem c3_save_session_script (s : Agent.RedisState) (maxLoginNum : Nat)
    (score : Int) (sessionKey sessionJson : String) (ttlSec : Nat) :
    (Agent.saveSessionScript s maxLoginNum score sessionKey sessionJson
        ttlSec).1.index.length ≤ maxLoginNum
    ∧ (∀ e ∈ (Agent.saveSessionScript s maxLoginNum score sessionKey sessionJson
          ttlSec).1.index,
        e.member = sessionKey
          ∨ (e ∈ s.index ∧ (Agent.storeGet s.store e.member).isSome))
    ∧ (⟨sessionKey, score⟩ : Agent.ZEntry)
        ∈ Agent.zaddEntry (Agent.sweepIndex s) sessionKey score
    ∧ Agent.storeGet (Agent.storeSet s.store sessionKey sessionJson ttlSec)
        sessionKey = some (sessionJson, ttlSec)
    ∧ (Agent.saveSessionScript s maxLoginNum score sessionKey sessionJson
        ttlSec).1.indexTtl = some ttlSec
    ∧ ∃ popped : List Agent.ZEntry,
        (Agent.saveSessionScript s maxLoginNum score sessionKey sessionJson
            ttlSec).2 = popped.length
        ∧ popped.length
            = (Agent.zaddEntry (Agent.sweepIndex s) sessionKey score).length
              - (Agent.saveSessionScript s maxLoginNum score sessionKey sessionJson
                  ttlSec).1.index.length
        ∧ (popped ++ (Agent.saveSessionScript s maxLoginNum score sessionKey
              sessionJson ttlSec).1.index).Perm
            (Agent.zaddEntry (Agent.sweepIndex s) sessionKey score)
        ∧ (∀ p ∈ popped,
            ∀ r ∈ (Agent.saveSessionScript s maxLoginNum score sessionKey
                sessionJson ttlSec).1.index, Agent.zleB p r)
        ∧ ∀ p ∈ popped,
            Agent.storeGet (Agent.saveSessionScript s maxLoginNum score sessionKey
                sessionJson ttlSec).1.store p.member = none := by
  unfold Agent.saveSessionScript
  by_cases hover : maxLoginNum
      < (Agent.zaddEntry (Agent.sweepIndex s) sessionKey score).length
  · rw [if_pos hover]
    dsimp only []
    have hlenS : ((Agent.zaddEntry (Agent.sweepIndex s) sessionKey score).mergeSort
        Agent.zleB).length
        = (Agent.zaddEntry (Agent.sweepIndex s) sessionKey score).length :=
      List.length_mergeSort _
    have hpw : (((Agent.zaddEntry (Agent.sweepIndex s) sessionKey score).mergeSort
        Agent.zleB)).Pairwise (fun a b => Agent.zleB a b) :=
      List.sorted_mergeSort Agent.zleB_trans Agent.zleB_total _
    have hperm := List.mergeSort_perm
      (Agent.zaddEntry (Agent.sweepIndex s) sessionKey score) Agent.zleB
    have hsplit := List.take_append_drop
      ((Agent.zaddEntry (Agent.sweepIndex s) sessionKey score).length - maxLoginNum)
      ((Agent.zaddEntry (Agent.sweepIndex s) sessionKey score).mergeSort Agent.zleB)
    refine ⟨?_, ?_, ?_, Agent.storeGet_storeSet_self _ _ _ _, rfl, ?_⟩
    · rw [List.length_drop, hlenS]
      omega
    · intro e he
      have h1 : e ∈ (Agent.zaddEntry (Agent.sweepIndex s) sessionKey score).mergeSort
          Agent.zleB := List.mem_of_mem_drop he
      exact Agent.mem_zadd_sweep s sessionKey score e
        (List.mem_mergeSort.mp h1)
    · exact List.mem_append_right _ (List.mem_singleton_self _)
    · refine ⟨((Agent.zaddEntry (Agent.sweepIndex s) sessionKey score).mergeSort
          Agent.zleB).take
          ((Agent.zaddEntry (Agent.sweepIndex s) sessionKey score).length
            - maxLoginNum), rfl, ?_, ?_, ?_, ?_⟩
      · rw [List.length_take, List.length_drop, hlenS]
        omega
      · rw [hsplit]
        exact hperm
      · have := (List.pairwise_append.mp (hsplit ▸ hpw)).2.2
        exact this
      · intro p hp
        exact Agent.foldDel_get_none _ _ _ (Or.inr ⟨p, hp, rfl⟩)
  · rw [if_neg hover]
    dsimp only []
    refine ⟨by omega, Agent.mem_zadd_sweep s sessionKey score,
      List.mem_append_right _ (List.mem_singleton_self _),
      Agent.storeGet_storeSet_self _ _ _ _, rfl, [], rfl,
      (Nat.sub_self _).symm,
      List.Perm.refl _, fun p hp => absurd hp (List.not_mem_nil p),
      fun p hp => absurd hp (List.not_mem_nil p)⟩

/-- C5. Hybrid knowledge-base search fuses the vector and BM25
rankings with RRF using `k = 60` and 1-based ranks
(`1/(60 + rank)` per ranking a key appears in), and returns at most
`top_k` fused documents in RRF-descending order; every returned
document comes from the vector list or the BM25 top-2K list, in union
mode every document of either list receives a fused score (is
eligible), and in intersection mode every returned document appears
in both the vector list and the BM25 top-2K list. -/
theorem c5_hybrid_rrf (vectorResults allChunks : List Agent.Doc)
    (bm25Scores : List ℚ) (topK : Nat) (mode : String)
    (hsub : ∀ d ∈ vectorResults, d ∈ allChunks) :
    (∀ (A B : List Agent.Doc) (k : String),
        (A.map Agent.docKey).Nodup → (B.map Agent.docKey).Nodup →
        Agent.qLookup (Agent.rrfAfter B (Agent.rrfAfter A [])) k
          = Agent.rankTerm (A.map Agent.docKey) k
            + Agent.rankTerm (B.map Agent.docKey) k)
    ∧ (Agent.hybridSearchKb vectorResults allChunks bm25Scores topK mode).length
        ≤ topK
    ∧ (Agent.hybridSearchKb vectorResults allChunks bm25Scores topK mode).Pairwise
        (fun a b => b.rrfScore.getD 0 ≤ a.rrfScore.getD 0)
    ∧ (∀ x ∈ Agent.hybridSearchKb vectorResults allChunks bm25Scores topK mode,
        x.doc ∈ vectorResults
          ∨ x.doc ∈ Agent.bm25Candidates allChunks bm25Scores topK)
    ∧ (∀ d : Agent.Doc,
        d ∈ vectorResults ∨ d ∈ Agent.bm25Candidates allChunks bm25Scores topK →
        (Agent.fusedScores vectorResults allChunks bm25Scores topK).any
          (fun p => p.1 == Agent.docKey d) = true)
    ∧ (mode = "intersection" →
        ∀ x ∈ Agent.hybridSearchKb vectorResults allChunks bm25Scores topK mode,
          vectorResults.any
              (fun d => Agent.docKey d == Agent.docKey x.doc) = true
            ∧ (Agent.bm25Candidates allChunks bm25Scores topK).any
                (fun d => Agent.docKey d == Agent.docKey x.doc) = true) := by
  refine ⟨?_, ?_, ?_, ?_, ?_, ?_⟩
  · -- (i) the RRF formula
    intro A B k hA hB
    unfold Agent.rrfAfter
    rw [Agent.qLookup_rrfAux B 0 _ k hB, Agent.qLookup_rrfAux A 0 [] k hA]
    have h0 : Agent.qLookup [] k = 0 := rfl
    rw [h0]
    unfold Agent.rankTerm
    by_cases hkA : k ∈ A.map Agent.docKey <;>
      by_cases hkB : k ∈ B.map Agent.docKey <;>
      simp only [hkA, hkB, if_true, if_false, if_pos, if_neg, not_false_iff] <;>
      push_cast <;> ring
  · -- (ii) length bound
    unfold Agent.hybridSearchKb
    split
    · rw [List.length_map, List.length_take]
      exact min_le_left _ _
    · refine le_trans (List.length_filterMap_le _ _) ?_
      rw [List.length_take]
      exact min_le_left _ _
  · -- (ii) RRF-descending order
    unfold Agent.hybridSearchKb
    split
    · refine List.Pairwise.map _ (fun a b _ => ?_)
        (Agent.pairwise_of_total (fun _ _ => True) (fun _ _ => trivial) _)
      simp
    · refine List.Pairwise.filterMap _ ?_
        (List.Pairwise.sublist (List.take_sublist _ _)
          (List.sorted_mergeSort ?_ ?_ _))
      · intro k k' hkk' x hx y hy
        rw [Option.mem_def, Option.map_eq_some'] at hx hy
        obtain ⟨p, hp, hpe⟩ := hx
        obtain ⟨q, hq, hqe⟩ := hy
        rw [← hpe, ← hqe]
        simpa using hkk'
      · intro a b c hab hbc
        simp only [decide_eq_true_eq] at *
        exact le_trans hbc hab
      · intro a b
        simp only [Bool.or_eq_true, decide_eq_true_eq]
        exact le_total _ _
  · -- (iii) returned documents come from one of the two lists
    intro x hx
    unfold Agent.hybridSearchKb at hx
    split at hx
    · rw [List.mem_map] at hx
      obtain ⟨d, hd, he⟩ := hx
      exact Or.inl (by rw [← he]; exact List.mem_of_mem_take hd)
    · rw [List.mem_filterMap] at hx
      obtain ⟨k, _, hk⟩ := hx
      rw [Option.map_eq_some'] at hk
      obtain ⟨p, hp, hpe⟩ := hk
      have hmem := List.mem_of_find?_eq_some hp
      have hinv := Agent.contentMap_inv vectorResults
        (Agent.bm25Candidates allChunks bm25Scores topK) p hmem
      rw [← hpe]
      exact hinv.2
  · -- (iii) union eligibility: both lists feed the fused score map
    intro d hd
    unfold Agent.fusedScores Agent.rrfAfter
    rw [Agent.any_rrfAux, Agent.any_rrfAux]
    rcases hd with hd | hd
    · have : vectorResults.any
          (fun d' => Agent.docKey d' == Agent.docKey d) = true :=
        List.any_eq_true.mpr ⟨d, hd, by simp⟩
      simp [this]
    · have : (Agent.bm25Candidates allChunks bm25Scores topK).any
          (fun d' => Agent.docKey d' == Agent.docKey d) = true :=
        List.any_eq_true.mpr ⟨d, hd, by simp⟩
      simp [this]
  · -- (iv) intersection mode never returns a document outside either list
    intro hmode x hx
    unfold Agent.hybridSearchKb at hx
    split at hx
    · rename_i hempty
      rw [List.mem_map] at hx
      obtain ⟨d, hd, he⟩ := hx
      have hdv : d ∈ vectorResults := List.mem_of_mem_take hd
      have : d ∈ allChunks := hsub d hdv
      rw [List.isEmpty_iff] at hempty
      rw [hempty] at this
      exact absurd this (List.not_mem_nil d)
    · rw [List.mem_filterMap] at hx
      obtain ⟨k, hkmem, hk⟩ := hx
      rw [Option.map_eq_some'] at hk
      obtain ⟨p, hp, hpe⟩ := hk
      -- the key names the returned document
      have hpk : p.1 = k := by
        have := List.find?_some hp
        simpa using this
      have hmem := List.mem_of_find?_eq_some hp
      have hinv := Agent.contentMap_inv vectorResults
        (Agent.bm25Candidates allChunks bm25Scores topK) p hmem
      have hxdoc : Agent.docKey x.doc = k := by
        rw [← hpe]
        rw [← hpk]
        exact hinv.1.symm
      -- the key passed the intersection filter
      have hks : k ∈ Agent.sortedKeysOf vectorResults allChunks bm25Scores
          topK mode := List.mem_of_mem_take hkmem
      unfold Agent.sortedKeysOf at hks
      rw [List.mem_mergeSort, List.mem_map] at hks
      obtain ⟨q, hq, hqk⟩ := hks
      unfold Agent.filteredScoresOf at hq
      rw [if_pos (by simp [hmode])] at hq
      have hfil := List.of_mem_filter hq
      rw [Bool.and_eq_true] at hfil
      rw [hxdoc, ← hqk]
      exact ⟨hfil.1, hfil.2⟩

/-- Witness for C5 on the three-chunk corpus of the spec's scenario 6:
A is a vector-only match, B a BM25-only match, C matches both. -/
theorem c5_hybrid_rrf_witness :
    (Agent.qLookup (Agent.rrfAfter [⟨"d2", 0, "B"⟩, ⟨"d3", 0, "C"⟩]
        (Agent.rrfAfter [⟨"d1", 0, "A"⟩, ⟨"d3", 0, "C"⟩] [])) "d3_0"
      = Agent.rankTerm
          (([⟨"d1", 0, "A"⟩, ⟨"d3", 0, "C"⟩] : List Agent.Doc).map Agent.docKey)
          "d3_0"
        + Agent.rankTerm
            (([⟨"d2", 0, "B"⟩, ⟨"d3", 0, "C"⟩] : List Agent.Doc).map Agent.docKey)
            "d3_0")
    ∧ (Agent.hybridSearchKb [⟨"d1", 0, "A"⟩, ⟨"d3", 0, "C"⟩]
        [⟨"d1", 0, "A"⟩, ⟨"d2", 0, "B"⟩, ⟨"d3", 0, "C"⟩]
        [0, 2, 3] 3 "union").length ≤ 3
    ∧ (Agent.hybridSearchKb [⟨"d1", 0, "A"⟩, ⟨"d3", 0, "C"⟩]
        [⟨"d1", 0, "A"⟩, ⟨"d2", 0, "B"⟩, ⟨"d3", 0, "C"⟩]
        [0, 2, 3] 3 "union").Pairwise
        (fun a b => b.rrfScore.getD 0 ≤ a.rrfScore.getD 0)
    ∧ (∀ x ∈ Agent.hybridSearchKb [⟨"d1", 0, "A"⟩, ⟨"d3", 0, "C"⟩]
          [⟨"d1", 0, "A"⟩, ⟨"d2", 0, "B"⟩, ⟨"d3", 0, "C"⟩] [0, 2, 3] 3 "union",
        x.doc ∈ ([⟨"d1", 0, "A"⟩, ⟨"d3", 0, "C"⟩] : List Agent.Doc)
          ∨ x.doc ∈ Agent.bm25Candidates
              [⟨"d1", 0, "A"⟩, ⟨"d2", 0, "B"⟩, ⟨"d3", 0, "C"⟩] [0, 2, 3] 3)
    ∧ (∀ d : Agent.Doc,
        d ∈ ([⟨"d1", 0, "A"⟩, ⟨"d3", 0, "C"⟩] : List Agent.Doc)
          ∨ d ∈ Agent.bm25Candidates
              [⟨"d1", 0, "A"⟩, ⟨"d2", 0, "B"⟩, ⟨"d3", 0, "C"⟩] [0, 2, 3] 3 →
        (Agent.fusedScores [⟨"d1", 0, "A"⟩, ⟨"d3", 0, "C"⟩]
            [⟨"d1", 0, "A"⟩, ⟨"d2", 0, "B"⟩, ⟨"d3", 0, "C"⟩] [0, 2, 3] 3).any
          (fun p => p.1 == Agent.docKey d) = true)
    ∧ (("union" : String) = "intersection" →
        ∀ x ∈ Agent.hybridSearchKb [⟨"d1", 0, "A"⟩, ⟨"d3", 0, "C"⟩]
            [⟨"d1", 0, "A"⟩, ⟨"d2", 0, "B"⟩, ⟨"d3", 0, "C"⟩] [0, 2, 3] 3 "union",
          ([⟨"d1", 0, "A"⟩, ⟨"d3", 0, "C"⟩] : List Agent.Doc).any
              (fun d => Agent.docKey d == Agent.docKey x.doc) = true
            ∧ (Agent.bm25Candidates
                [⟨"d1", 0, "A"⟩, ⟨"d2", 0, "B"⟩, ⟨"d3", 0, "C"⟩] [0, 2, 3] 3).any
                (fun d => Agent.docKey d == Agent.docKey x.doc) = true) := by
  have h := c5_hybrid_rrf [⟨"d1", 0, "A"⟩, ⟨"d3", 0, "C"⟩]
    [⟨"d1", 0, "A"⟩, ⟨"d2", 0, "B"⟩, ⟨"d3", 0, "C"⟩] [0, 2, 3] 3 "union"
    (by decide)
  exact ⟨h.1 [⟨"d1", 0, "A"⟩, ⟨"d3", 0, "C"⟩] [⟨"d2", 0, "B"⟩, ⟨"d3", 0, "C"⟩]
      "d3_0" (by decide) (by decide),
    h.2.1, h.2.2.1, h.2.2.2.1, h.2.2.2.2.1, h.2.2.2.2.2⟩
